import Mathlib

/-!
Shallow embedding of the `passwordgen` Go package (password generator).

Go strings here hold only single-byte ASCII characters, so byte indexing and
rune (codepoint) indexing coincide; strings are modelled as `List Char`.
The secure random source `crypto/rand` is modelled by an oracle
`R : Nat → Option Nat`: the `i`-th call to `rand.Int(rand.Reader, n)` either
fails (`R i = none`, modelling an entropy-source read error) or succeeds and
yields the in-range value `v % n` where `R i = some v` (`rand.Int` guarantees
a uniform value in `[0, n)`; which in-range value appears does not matter for
the properties proved here, only that any value in `[0, n)` can appear).
`rand.Int` panics when its bound is `≤ 0` (`zeroBound`), and a caller that
discards the error and dereferences the `nil` result panics (`nilDeref`).
-/

namespace Passwordgen

/-- The two sentinel errors of the package, plus the propagated
randomness-source failure. -/
inductive Err where
  | exceedsTotalLength
  | noCharactersSpecified
  | randFailure
deriving DecidableEq, Repr

/-- Run-time panics reachable in the code: `crypto/rand.Int` panics when its
bound is `≤ 0` (`zeroBound`); dereferencing the `nil` big.Int returned by a
failed `rand.Int` call panics (`nilDeref`). -/
inductive PanicKind where
  | zeroBound
  | nilDeref
deriving DecidableEq, Repr

/-- Outcome of running a piece of the generator: a value, a returned error,
or a run-time panic. -/
inductive GenRes (α : Type) where
  | ok : α → GenRes α
  | err : Err → GenRes α
  | panicked : PanicKind → GenRes α
deriving DecidableEq, Repr

/-- The random source: at call index `i`, either a failure (`none`) or a
successful draw. -/
abbrev Oracle := Nat → Option Nat

/-- LowerLetters is the list of lowercase letters. -/
def LowerLetters : List Char := "abcdefghijklmnopqrstuvwxyz".data

/-- UpperLetters is the list of uppercase letters. -/
def UpperLetters : List Char := "ABCDEFGHIJKLMNOPQRSTUVWXYZ".data

/-- Digits is the list of permitted digits. -/
def Digits : List Char := "0123456789".data

/-- Symbols is the list of symbols. -/
def Symbols : List Char := "~!@#$%^&*()_+-=\x7b\x7d[]".data

/-- LowerLettersNoAmbig is the list of lowercase letters without ambiguous characters. -/
def LowerLettersNoAmbig : List Char := "abcdefghjkmnpqrstuvwxyz".data

/-- UpperLettersNoAmbig is the list of uppercase letters without ambiguous characters. -/
def UpperLettersNoAmbig : List Char := "ABCDEFGHJKMNPQRSTUVWXYZ".data

/-- DigitsNoAmbig is the list of permitted digits without ambiguous characters. -/
def DigitsNoAmbig : List Char := "23456789".data

/-- SymbolsNoAmbig is the list of symbols without ambiguous characters. -/
def SymbolsNoAmbig : List Char := "~!@#$%^&*()_+-=\x7b\x7d[]".data

/-- The generator configuration: four alphabet strings, four inclusion
flags, four required counts (Go `int`, so modelled as `Int`). -/
structure Generator where
  lowerLetters : List Char
  upperLetters : List Char
  digits : List Char
  symbols : List Char
  withLower : Bool
  withUpper : Bool
  withDigits : Bool
  withSymbols : Bool
  requireLower : Int
  requireUpper : Int
  requireDigits : Int
  requireSymbols : Int
deriving DecidableEq, Repr

/-- NewGenerator returns a new empty generator (full alphabets, no flags,
zero required counts; Go zero values for the omitted fields). -/
def NewGenerator : Generator :=
  { lowerLetters := LowerLetters
    upperLetters := UpperLetters
    digits := Digits
    symbols := Symbols
    withLower := false
    withUpper := false
    withDigits := false
    withSymbols := false
    requireLower := 0
    requireUpper := 0
    requireDigits := 0
    requireSymbols := 0 }

/-- NoAmbiguousCharacters swaps all four alphabet slots to the
no-ambiguity variants. -/
def NoAmbiguousCharacters (g : Generator) : Generator :=
  { g with
    lowerLetters := LowerLettersNoAmbig
    upperLetters := UpperLettersNoAmbig
    digits := DigitsNoAmbig
    symbols := SymbolsNoAmbig }

/-- WithLower adds lower case letters to the password pool. -/
def WithLower (g : Generator) : Generator := { g with withLower := true }

/-- WithUpper adds upper case letters to the password pool. -/
def WithUpper (g : Generator) : Generator := { g with withUpper := true }

/-- WithDigits adds digits to the password pool. -/
def WithDigits (g : Generator) : Generator := { g with withDigits := true }

/-- WithSymbols adds symbols to the password pool. -/
def WithSymbols (g : Generator) : Generator := { g with withSymbols := true }

/-- RequireLower: at least N lower case letters. -/
def RequireLower (g : Generator) (N : Int) : Generator :=
  { g with withLower := true, requireLower := N }

/-- RequireUpper: at least N upper case letters. -/
def RequireUpper (g : Generator) (N : Int) : Generator :=
  { g with withUpper := true, requireUpper := N }

/-- RequireDigits: at least N digits. -/
def RequireDigits (g : Generator) (N : Int) : Generator :=
  { g with withDigits := true, requireDigits := N }

/-- RequireSymbols: at least N symbols. -/
def RequireSymbols (g : Generator) (N : Int) : Generator :=
  { g with withSymbols := true, requireSymbols := N }

/-- ExactLower: exactly N lower case letters (clears the inclusion flag). -/
def ExactLower (g : Generator) (N : Int) : Generator :=
  { g with withLower := false, requireLower := N }

/-- ExactUpper: exactly N upper case letters (clears the inclusion flag). -/
def ExactUpper (g : Generator) (N : Int) : Generator :=
  { g with withUpper := false, requireUpper := N }

/-- ExactDigits: exactly N digits (clears the inclusion flag). -/
def ExactDigits (g : Generator) (N : Int) : Generator :=
  { g with withDigits := false, requireDigits := N }

/-- ExactSymbols: exactly N symbols (clears the inclusion flag). -/
def ExactSymbols (g : Generator) (N : Int) : Generator :=
  { g with withSymbols := false, requireSymbols := N }

/-- Model of `randomElement(s)`: one `rand.Int(rand.Reader, big.NewInt(len(s)))` call,
then `s[n]`.  `rand.Int` panics when the bound is `≤ 0` (empty string), fails
when the random source fails, and otherwise yields an index in `[0, len s)`.
Returns the drawn element together with the next oracle call index. -/
def randomElement (R : Oracle) (s : List Char) (c : Nat) : GenRes Char × Nat :=
  if s.length = 0 then (.panicked .zeroBound, c)
  else
    match R c with
    | none => (.err .randFailure, c + 1)
    | some v => (.ok (s.getD (v % s.length) 'a'), c + 1)

/-- A Go loop `for i := 0; i < n; i++` appending one `randomElement(s)` per
iteration to the buffer `acc`, propagating the first failure.  A loop bound
`n : Int` that is `≤ 0` runs zero times, hence the `Nat` iteration count
(`Int.toNat` at the call sites). -/
def seedN (R : Oracle) (s : List Char) : Nat → List Char → Nat → GenRes (List Char) × Nat
  | 0, acc, c => (.ok acc, c)
  | n + 1, acc, c =>
    match randomElement R s c with
    | (.ok ch, c') => seedN R s n (acc ++ [ch]) c'
    | (.err e, c') => (.err e, c')
    | (.panicked p, c') => (.panicked p, c')

/-- One pass of the in-place shuffle loop, on a slice of length `n`:
`randIndex, _ := rand.Int(rand.Reader, big.NewInt(int64(n)))` — the error is
DISCARDED, so a random-source failure leaves `randIndex = nil` and the
subsequent `randIndex.Int64()` dereference panics — then the simultaneous
assignment swaps positions `n-1` and `randIndex`, and the slice is shrunk by
one (the shrunk-off last element is final). -/
def shuffleAux (R : Oracle) : Nat → List Char → Nat → GenRes (List Char) × Nat
  | 0, l, c => (.ok l, c)
  | n + 1, l, c =>
    match R c with
    | none => (.panicked .nilDeref, c + 1)
    | some v =>
      let j := v % (n + 1)
      let l2 := (l.set n (l.getD j 'a')).set j (l.getD n 'a')
      match shuffleAux R n (l2.take n) (c + 1) with
      | (.ok pre, c') => (.ok (pre ++ l2.drop n), c')
      | (.err e, c') => (.err e, c')
      | (.panicked p, c') => (.panicked p, c')

/-- Model of `shuffle(vals)`: runs the loop starting from the full slice length. -/
def shuffle (R : Oracle) (l : List Char) (c : Nat) : GenRes (List Char) × Nat :=
  shuffleAux R l.length l c

/-- The fill pool `values`: concatenation of the CONFIGURED alphabets of the
classes whose inclusion flag is set (built by `valuesBuilder` in the source). -/
def fillPool (g : Generator) : List Char :=
  (if g.withLower then g.lowerLetters else []) ++
    (if g.withUpper then g.upperLetters else []) ++
      (if g.withDigits then g.digits else []) ++
        (if g.withSymbols then g.symbols else [])

/-- Error/panic propagation of Go's `if err != nil { return "", err }`
pattern, threading the oracle call index. -/
def andThen {α β : Type} (r : GenRes α × Nat) (f : α → Nat → GenRes β × Nat) :
    GenRes β × Nat :=
  match r with
  | (.ok a, c) => f a c
  | (.err e, c) => (.err e, c)
  | (.panicked p, c) => (.panicked p, c)

@[simp]
theorem andThen_ok {α β : Type} (a : α) (c : Nat) (f : α → Nat → GenRes β × Nat) :
    andThen (.ok a, c) f = f a c := rfl

@[simp]
theorem andThen_err {α β : Type} (e : Err) (c : Nat) (f : α → Nat → GenRes β × Nat) :
    andThen (.err e, c) f = (.err e, c) := rfl

@[simp]
theorem andThen_panicked {α β : Type} (p : PanicKind) (c : Nat)
    (f : α → Nat → GenRes β × Nat) : andThen (.panicked p, c) f = (.panicked p, c) := rfl

/-- The body of `Generate` after the two initial guards: seed the four
required classes from the FULL alphabet constants (in source order: lower,
upper, digits, symbols), then, if the buffer is still short, fill from the
configured pool (erroring when the pool is empty), and finally shuffle. -/
def generateBody (g : Generator) (len : Int) (R : Oracle) : GenRes (List Char) × Nat :=
  andThen (seedN R LowerLetters g.requireLower.toNat [] 0) (fun b1 c1 =>
  andThen (seedN R UpperLetters g.requireUpper.toNat b1 c1) (fun b2 c2 =>
  andThen (seedN R Digits g.requireDigits.toNat b2 c2) (fun b3 c3 =>
  andThen (seedN R Symbols g.requireSymbols.toNat b3 c3) (fun b4 c4 =>
  andThen (
    if (b4.length : Int) < len then
      if (fillPool g).length = 0 then ((.err .noCharactersSpecified : GenRes (List Char)), c4)
      else seedN R (fillPool g) (len - (b4.length : Int)).toNat b4 c4
    else (.ok b4, c4)) (fun b5 c5 =>
  shuffle R b5 c5)))))

/-- Model of `Generate` as a method on the (pointer) receiver: the method never writes
any receiver field, so every exit path of the embedding returns the receiver
unchanged as the second component. -/
def GenerateSt (g : Generator) (len : Int) (R : Oracle) :
    GenRes (List Char) × Generator :=
  if g.withLower = false ∧ g.withUpper = false ∧ g.withDigits = false ∧ g.withSymbols = false
  then (.err .noCharactersSpecified, g)
  else if g.requireLower + g.requireUpper + g.requireDigits + g.requireSymbols > len
  then (.err .exceedsTotalLength, g)
  else ((generateBody g len R).1, g)

/-- The value returned to the caller of `Generate`. -/
def Generate (g : Generator) (len : Int) (R : Oracle) : GenRes (List Char) :=
  (GenerateSt g len R).1

/-- The first guard condition: no inclusion flag set (the source checks ONLY
the four flags, not the required counts). -/
def noClassEnabled (g : Generator) : Prop :=
  g.withLower = false ∧ g.withUpper = false ∧ g.withDigits = false ∧ g.withSymbols = false

instance (g : Generator) : Decidable (noClassEnabled g) := by
  unfold noClassEnabled; infer_instance

/-- Sum of the four required counts (Go `int` arithmetic). -/
def reqSum (g : Generator) : Int :=
  g.requireLower + g.requireUpper + g.requireDigits + g.requireSymbols

/-- Number of characters placed by the required-character seeding phase. -/
def seedLen (g : Generator) : Nat :=
  g.requireLower.toNat + g.requireUpper.toNat + g.requireDigits.toNat +
    g.requireSymbols.toNat

/-- Alphabet fields as produced by the package API: `NewGenerator` installs
the full tables and `NoAmbiguousCharacters` the reduced ones; nothing else
touches them. -/
def StdAlphabets (g : Generator) : Prop :=
  (g.lowerLetters = LowerLetters ∨ g.lowerLetters = LowerLettersNoAmbig) ∧
    (g.upperLetters = UpperLetters ∨ g.upperLetters = UpperLettersNoAmbig) ∧
      (g.digits = Digits ∨ g.digits = DigitsNoAmbig) ∧
        (g.symbols = Symbols ∨ g.symbols = SymbolsNoAmbig)

instance (g : Generator) : Decidable (StdAlphabets g) := by
  unfold StdAlphabets; infer_instance

/-- The union of the FULL alphabets of the classes that are enabled or have a
positive required count. -/
def activeUnion (g : Generator) : List Char :=
  (if g.withLower = true ∨ 0 < g.requireLower then LowerLetters else []) ++
    (if g.withUpper = true ∨ 0 < g.requireUpper then UpperLetters else []) ++
      (if g.withDigits = true ∨ 0 < g.requireDigits then Digits else []) ++
        (if g.withSymbols = true ∨ 0 < g.requireSymbols then Symbols else [])

/-- The four character classes. -/
inductive CharClass where
  | lower
  | upper
  | digit
  | symbol
deriving DecidableEq, Repr

/-- The full alphabet constant of a class. -/
def fullAlpha : CharClass → List Char
  | .lower => LowerLetters
  | .upper => UpperLetters
  | .digit => Digits
  | .symbol => Symbols

/-- The inclusion flag of a class. -/
def withFlag (g : Generator) : CharClass → Bool
  | .lower => g.withLower
  | .upper => g.withUpper
  | .digit => g.withDigits
  | .symbol => g.withSymbols

/-- The required count of a class. -/
def reqOf (g : Generator) : CharClass → Int
  | .lower => g.requireLower
  | .upper => g.requireUpper
  | .digit => g.requireDigits
  | .symbol => g.requireSymbols

/-! ### Helper lemmas about the random primitives -/

theorem getD_cons_set_perm {α : Type} (d a : α) :
    ∀ (t : List α) (m : Nat), m < t.length →
      (t.getD m d :: t.set m a).Perm (a :: t) := by
  intro t
  induction t with
  | nil => intro m hm; simp at hm
  | cons b t ih =>
    intro m hm
    cases m with
    | zero => simpa using List.Perm.swap a b t
    | succ k =>
      have hk : k < t.length := by simpa using hm
      have ihk := ih k hk
      simp only [List.getD_cons_succ, List.set_cons_succ]
      exact (List.Perm.swap b (t.getD k d) (t.set k a)).trans
        ((ihk.cons b).trans (List.Perm.swap a b t))

/-- The simultaneous swap `l[i], l[j] = l[j], l[i]` permutes the list. -/
theorem set_set_perm {α : Type} (d : α) :
    ∀ (l : List α) (i j : Nat), i < l.length → j < l.length →
      ((l.set i (l.getD j d)).set j (l.getD i d)).Perm l := by
  intro l
  induction l with
  | nil => intro i j hi _; simp at hi
  | cons a t ih =>
    intro i j hi hj
    cases i with
    | zero =>
      cases j with
      | zero => simp
      | succ m =>
        have hm : m < t.length := by simpa using hj
        simpa using getD_cons_set_perm d a t m hm
    | succ n =>
      have hn : n < t.length := by simpa using hi
      cases j with
      | zero =>
        simpa using getD_cons_set_perm d a t n hn
      | succ m =>
        have hm : m < t.length := by simpa using hj
        simpa using (ih n m hn hm).cons a

theorem randomElement_ok (R : Oracle) (s : List Char) (c : Nat) (v : Nat)
    (hs : s.length ≠ 0) (hv : R c = some v) :
    randomElement R s c = (.ok (s.getD (v % s.length) 'a'), c + 1) := by
  unfold randomElement
  rw [if_neg hs, hv]

theorem getD_mem (s : List Char) (i : Nat) (h : i < s.length) :
    s.getD i 'a' ∈ s := by
  have he : s.getD i 'a' = s[i] := by
    simp [List.getD_eq_getElem?_getD, List.getElem?_eq_getElem h]
  rw [he]
  exact List.getElem_mem h

theorem seedN_ok (R : Oracle) (s : List Char) (hs : s.length ≠ 0)
    (hR : ∀ j, (R j).isSome) :
    ∀ (n : Nat) (acc : List Char) (c : Nat),
      ∃ t, seedN R s n acc c = (.ok (acc ++ t), c + n) ∧ t.length = n ∧
        ∀ x ∈ t, x ∈ s := by
  intro n
  induction n with
  | zero => intro acc c; exact ⟨[], by simp [seedN], rfl, by simp⟩
  | succ n ih =>
    intro acc c
    obtain ⟨v, hv⟩ := Option.isSome_iff_exists.mp (hR c)
    have hlt : v % s.length < s.length := Nat.mod_lt _ (Nat.pos_of_ne_zero hs)
    have hmem : s.getD (v % s.length) 'a' ∈ s := getD_mem s _ hlt
    obtain ⟨t, ht, htl, htm⟩ := ih (acc ++ [s.getD (v % s.length) 'a']) (c + 1)
    refine ⟨s.getD (v % s.length) 'a' :: t, ?_, by simp [htl], ?_⟩
    · simp only [seedN, randomElement_ok R s c v hs hv]
      rw [ht]
      simp only [List.append_assoc, List.singleton_append, Prod.mk.injEq, GenRes.ok.injEq]
      exact ⟨trivial, by omega⟩
    · intro x hx
      rcases List.mem_cons.mp hx with h | h
      · exact h ▸ hmem
      · exact htm x h

theorem seedN_not_panicked (R : Oracle) (s : List Char) (hs : s.length ≠ 0) :
    ∀ (n : Nat) (acc : List Char) (c : Nat) (p : PanicKind),
      (seedN R s n acc c).1 ≠ .panicked p := by
  intro n
  induction n with
  | zero => intro acc c p; simp [seedN]
  | succ n ih =>
    intro acc c p
    simp only [seedN]
    unfold randomElement
    rw [if_neg hs]
    cases hv : R c with
    | none => simp
    | some v => exact ih _ _ _

theorem shuffleAux_ne_zeroBound (R : Oracle) :
    ∀ (n : Nat) (l : List Char) (c : Nat),
      (shuffleAux R n l c).1 ≠ .panicked .zeroBound := by
  intro n
  induction n with
  | zero => intro l c; simp [shuffleAux]
  | succ n ih =>
    intro l c
    simp only [shuffleAux]
    cases hv : R c with
    | none => simp
    | some v =>
      simp only []
      have hrec := ih (((l.set n (l.getD (v % (n + 1)) 'a')).set (v % (n + 1))
        (l.getD n 'a')).take n) (c + 1)
      cases h : shuffleAux R n (((l.set n (l.getD (v % (n + 1)) 'a')).set (v % (n + 1))
          (l.getD n 'a')).take n) (c + 1) with
      | mk r c' =>
        rw [h] at hrec
        cases r with
        | ok pre => simp
        | err e => simp [h]
        | panicked p => simp only [h]; simpa using hrec

theorem shuffleAux_ok (R : Oracle) (hR : ∀ j, (R j).isSome) :
    ∀ (n : Nat) (l : List Char) (c : Nat), l.length = n →
      ∃ l' c', shuffleAux R n l c = (.ok l', c') ∧ l'.Perm l := by
  intro n
  induction n with
  | zero => intro l c _; exact ⟨l, c, by simp [shuffleAux], List.Perm.refl l⟩
  | succ n ih =>
    intro l c hl
    obtain ⟨v, hv⟩ := Option.isSome_iff_exists.mp (hR c)
    have hjlt : v % (n + 1) < n + 1 := Nat.mod_lt _ (Nat.succ_pos n)
    have hl2len : ((l.set n (l.getD (v % (n + 1)) 'a')).set (v % (n + 1))
        (l.getD n 'a')).length = n + 1 := by simp [hl]
    obtain ⟨pre, c', hrec, hperm⟩ := ih (((l.set n (l.getD (v % (n + 1)) 'a')).set
      (v % (n + 1)) (l.getD n 'a')).take n) (c + 1)
      (by rw [List.length_take, hl2len]; omega)
    refine ⟨pre ++ ((l.set n (l.getD (v % (n + 1)) 'a')).set (v % (n + 1))
      (l.getD n 'a')).drop n, c', ?_, ?_⟩
    · simp only [shuffleAux, hv, hrec]
    · have h2 : ((l.set n (l.getD (v % (n + 1)) 'a')).set (v % (n + 1))
          (l.getD n 'a')).Perm l :=
        set_set_perm 'a' l n (v % (n + 1)) (by omega) (by omega)
      have h1 := hperm.append_right (((l.set n (l.getD (v % (n + 1)) 'a')).set
        (v % (n + 1)) (l.getD n 'a')).drop n)
      rw [List.take_append_drop] at h1
      exact h1.trans h2

/-! ### Alphabet facts -/

theorem lowerNoAmbig_sub : ∀ c ∈ LowerLettersNoAmbig, c ∈ LowerLetters := by decide

theorem upperNoAmbig_sub : ∀ c ∈ UpperLettersNoAmbig, c ∈ UpperLetters := by decide

theorem digitsNoAmbig_sub : ∀ c ∈ DigitsNoAmbig, c ∈ Digits := by decide

theorem symbolsNoAmbig_sub : ∀ c ∈ SymbolsNoAmbig, c ∈ Symbols := by decide

/-- The four full alphabets are pairwise disjoint. -/
theorem fullAlpha_disj (X Y : CharClass) :
    X ≠ Y → ∀ c ∈ fullAlpha X, c ∉ fullAlpha Y := by
  cases X <;> cases Y <;> decide

theorem fillPool_mem (g : Generator) (hstd : StdAlphabets g) :
    ∀ c ∈ fillPool g,
      (g.withLower = true ∧ c ∈ LowerLetters) ∨
        (g.withUpper = true ∧ c ∈ UpperLetters) ∨
          (g.withDigits = true ∧ c ∈ Digits) ∨
            (g.withSymbols = true ∧ c ∈ Symbols) := by
  obtain ⟨hA, hB, hC, hD⟩ := hstd
  intro c hc
  simp only [fillPool, List.mem_append] at hc
  rcases hc with ((hc | hc) | hc) | hc
  · left
    by_cases hw : g.withLower = true
    · rw [if_pos hw] at hc
      refine ⟨hw, ?_⟩
      rcases hA with h | h <;> rw [h] at hc
      · exact hc
      · exact lowerNoAmbig_sub c hc
    · rw [if_neg hw] at hc; simp at hc
  · right; left
    by_cases hw : g.withUpper = true
    · rw [if_pos hw] at hc
      refine ⟨hw, ?_⟩
      rcases hB with h | h <;> rw [h] at hc
      · exact hc
      · exact upperNoAmbig_sub c hc
    · rw [if_neg hw] at hc; simp at hc
  · right; right; left
    by_cases hw : g.withDigits = true
    · rw [if_pos hw] at hc
      refine ⟨hw, ?_⟩
      rcases hC with h | h <;> rw [h] at hc
      · exact hc
      · exact digitsNoAmbig_sub c hc
    · rw [if_neg hw] at hc; simp at hc
  · right; right; right
    by_cases hw : g.withSymbols = true
    · rw [if_pos hw] at hc
      refine ⟨hw, ?_⟩
      rcases hD with h | h <;> rw [h] at hc
      · exact hc
      · exact symbolsNoAmbig_sub c hc
    · rw [if_neg hw] at hc; simp at hc

/-- With API-produced alphabets, any enabled class makes the fill pool
non-empty (which is why the fill-time `NoCharactersSpecified` check can never
fire for such generators). -/
theorem std_pool_ne (g : Generator) (hstd : StdAlphabets g)
    (hflags : ¬ noClassEnabled g) : (fillPool g).length ≠ 0 := by
  obtain ⟨hA, hB, hC, hD⟩ := hstd
  have hl1 : g.lowerLetters.length ≠ 0 := by rcases hA with h | h <;> rw [h] <;> decide
  have hu1 : g.upperLetters.length ≠ 0 := by rcases hB with h | h <;> rw [h] <;> decide
  have hd1 : g.digits.length ≠ 0 := by rcases hC with h | h <;> rw [h] <;> decide
  have hs1 : g.symbols.length ≠ 0 := by rcases hD with h | h <;> rw [h] <;> decide
  intro h0
  simp only [fillPool, List.length_append] at h0
  by_cases hw : g.withLower = true
  · rw [if_pos hw] at h0; exact hl1 (by omega)
  · by_cases hu : g.withUpper = true
    · rw [if_pos hu] at h0; exact hu1 (by omega)
    · by_cases hd : g.withDigits = true
      · rw [if_pos hd] at h0; exact hd1 (by omega)
      · by_cases hsy : g.withSymbols = true
        · rw [if_pos hsy] at h0; exact hs1 (by omega)
        · exact hflags ⟨by simpa using hw, by simpa using hu,
            by simpa using hd, by simpa using hsy⟩

/-! ### The main evaluation lemma for `Generate` past the two guards -/

theorem generate_run (g : Generator) (len : Int) (R : Oracle)
    (hR : ∀ j, (R j).isSome)
    (hflags : ¬ noClassEnabled g)
    (hsum : reqSum g ≤ len) :
    ((seedLen g : Int) < len ∧ (fillPool g).length = 0 ∧
        Generate g len R = .err .noCharactersSpecified) ∨
      ∃ tL tU tD tS fl s,
        Generate g len R = .ok s ∧
        s.Perm (tL ++ tU ++ tD ++ tS ++ fl) ∧
        tL.length = g.requireLower.toNat ∧ tU.length = g.requireUpper.toNat ∧
        tD.length = g.requireDigits.toNat ∧ tS.length = g.requireSymbols.toNat ∧
        fl.length = (len - (seedLen g : Int)).toNat ∧
        (∀ x ∈ tL, x ∈ LowerLetters) ∧ (∀ x ∈ tU, x ∈ UpperLetters) ∧
        (∀ x ∈ tD, x ∈ Digits) ∧ (∀ x ∈ tS, x ∈ Symbols) ∧
        (∀ x ∈ fl, x ∈ fillPool g) := by
  have hsum' : ¬ (g.requireLower + g.requireUpper + g.requireDigits +
      g.requireSymbols > len) := by
    unfold reqSum at hsum; exact not_lt.mpr hsum
  have hflags' : ¬ (g.withLower = false ∧ g.withUpper = false ∧ g.withDigits = false ∧
      g.withSymbols = false) := hflags
  obtain ⟨t1, h1, h1l, h1m⟩ :=
    seedN_ok R LowerLetters (by decide) hR g.requireLower.toNat [] 0
  obtain ⟨t2, h2, h2l, h2m⟩ :=
    seedN_ok R UpperLetters (by decide) hR g.requireUpper.toNat
      (([] : List Char) ++ t1) (0 + g.requireLower.toNat)
  obtain ⟨t3, h3, h3l, h3m⟩ :=
    seedN_ok R Digits (by decide) hR g.requireDigits.toNat
      ((([] : List Char) ++ t1) ++ t2) (0 + g.requireLower.toNat + g.requireUpper.toNat)
  obtain ⟨t4, h4, h4l, h4m⟩ :=
    seedN_ok R Symbols (by decide) hR g.requireSymbols.toNat
      (((([] : List Char) ++ t1) ++ t2) ++ t3)
      (0 + g.requireLower.toNat + g.requireUpper.toNat + g.requireDigits.toNat)
  have hb4 : ((((([] : List Char) ++ t1) ++ t2) ++ t3) ++ t4).length = seedLen g := by
    simp only [List.length_append, List.length_nil, h1l, h2l, h3l, h4l, seedLen]
    omega
  by_cases hlt :
      (((((([] : List Char) ++ t1) ++ t2) ++ t3) ++ t4).length : Int) < len
  · by_cases hpool : (fillPool g).length = 0
    · left
      refine ⟨by rw [hb4] at hlt; exact hlt, hpool, ?_⟩
      unfold Generate GenerateSt
      rw [if_neg hflags', if_neg hsum']
      unfold generateBody
      rw [h1, andThen_ok, h2, andThen_ok, h3, andThen_ok, h4, andThen_ok,
        if_pos hlt, if_pos hpool]
      rfl
    · obtain ⟨fl, h5, h5l, h5m⟩ :=
        seedN_ok R (fillPool g) hpool hR
          ((len - (((((([] : List Char) ++ t1) ++ t2) ++ t3) ++ t4).length : Int)).toNat)
          (((([] : List Char) ++ t1) ++ t2) ++ t3 ++ t4)
          (0 + g.requireLower.toNat + g.requireUpper.toNat + g.requireDigits.toNat +
            g.requireSymbols.toNat)
      obtain ⟨s, c', hsh, hperm⟩ :=
        shuffleAux_ok R hR
          (((((([] : List Char) ++ t1) ++ t2) ++ t3 ++ t4) ++ fl).length)
          ((((([] : List Char) ++ t1) ++ t2) ++ t3 ++ t4) ++ fl)
          (0 + g.requireLower.toNat + g.requireUpper.toNat + g.requireDigits.toNat +
            g.requireSymbols.toNat +
            (len - (((((([] : List Char) ++ t1) ++ t2) ++ t3) ++ t4).length : Int)).toNat)
          rfl
      right
      refine ⟨t1, t2, t3, t4, fl, s, ?_, ?_, h1l, h2l, h3l, h4l, ?_, h1m, h2m, h3m, h4m, h5m⟩
      · unfold Generate GenerateSt
        rw [if_neg hflags', if_neg hsum']
        unfold generateBody
        rw [h1, andThen_ok, h2, andThen_ok, h3, andThen_ok, h4, andThen_ok,
          if_pos hlt, if_neg hpool, h5, andThen_ok]
        unfold shuffle
        rw [hsh]
      · exact hperm.trans (by simp [List.append_assoc])
      · rw [h5l, hb4]
  · right
    obtain ⟨s, c', hsh, hperm⟩ :=
      shuffleAux_ok R hR
        ((((([] : List Char) ++ t1) ++ t2) ++ t3 ++ t4).length)
        (((([] : List Char) ++ t1) ++ t2) ++ t3 ++ t4)
        (0 + g.requireLower.toNat + g.requireUpper.toNat + g.requireDigits.toNat +
          g.requireSymbols.toNat)
        rfl
    refine ⟨t1, t2, t3, t4, [], s, ?_, ?_, h1l, h2l, h3l, h4l, ?_, h1m, h2m, h3m, h4m,
      by simp⟩
    · unfold Generate GenerateSt
      rw [if_neg hflags', if_neg hsum']
      unfold generateBody
      rw [h1, andThen_ok, h2, andThen_ok, h3, andThen_ok, h4, andThen_ok, if_neg hlt,
        andThen_ok]
      unfold shuffle
      rw [hsh]
    · exact hperm.trans (by simp [List.append_assoc])
    · rw [hb4] at hlt
      simp only [List.length_nil]
      omega

/-- When no inclusion flag is set, the very first guard returns
`NoCharactersSpecified`, whatever the required counts and the length. -/
theorem generate_noClass (g : Generator) (len : Int) (R : Oracle)
    (h : noClassEnabled g) : Generate g len R = .err .noCharactersSpecified := by
  unfold Generate GenerateSt
  rw [if_pos (show g.withLower = false ∧ g.withUpper = false ∧ g.withDigits = false ∧
    g.withSymbols = false from h)]

/-- When some flag is set and the required counts exceed the length, the
second guard returns `ExceedsTotalLength` before any sampling. -/
theorem generate_exceeds (g : Generator) (len : Int) (R : Oracle)
    (hflags : ¬ noClassEnabled g) (h : len < reqSum g) :
    Generate g len R = .err .exceedsTotalLength := by
  unfold Generate GenerateSt
  rw [if_neg (show ¬ (g.withLower = false ∧ g.withUpper = false ∧ g.withDigits = false ∧
    g.withSymbols = false) from hflags)]
  rw [if_pos (show g.requireLower + g.requireUpper + g.requireDigits + g.requireSymbols >
    len from by unfold reqSum at h; exact h)]

theorem andThen_ne_zeroBound {α β : Type} (r : GenRes α × Nat)
    (f : α → Nat → GenRes β × Nat)
    (h1 : r.1 ≠ .panicked .zeroBound)
    (h2 : ∀ a c, (f a c).1 ≠ .panicked .zeroBound) :
    (andThen r f).1 ≠ .panicked .zeroBound := by
  obtain ⟨rr, c⟩ := r
  cases rr with
  | ok a => exact h2 a c
  | err e => simp [andThen]
  | panicked p => simpa [andThen] using h1

/-- Case (a) of claim C3 exactly as the claim states it: no class enabled AND
no required count set. -/
def noCharCaseA (g : Generator) : Prop :=
  noClassEnabled g ∧ g.requireLower = 0 ∧ g.requireUpper = 0 ∧ g.requireDigits = 0 ∧
    g.requireSymbols = 0

instance (g : Generator) : Decidable (noCharCaseA g) := by
  unfold noCharCaseA; infer_instance

/-- Case (b) of claim C3: the fill-time check — the first guard was passed,
the feasibility guard was passed, slots remain after the seeding phase, and
the fill pool is empty. -/
def noCharCaseB (g : Generator) (len : Int) : Prop :=
  ¬ noClassEnabled g ∧ reqSum g ≤ len ∧ (seedLen g : Int) < len ∧
    (fillPool g).length = 0

instance (g : Generator) (len : Int) : Decidable (noCharCaseB g len) := by
  unfold noCharCaseB; infer_instance

/-! ### The claims -/

/-- Claim C1: for every configuration with API-produced alphabets, at least
one class enabled, all four required counts non-negative, and
`reqSum ≤ length`, `Generate` (with a working random source) returns no
error and a string of exactly `length` characters (codepoints). -/
theorem claim_C1 (g : Generator) (len : Int) (R : Oracle)
    (hstd : StdAlphabets g) (hR : ∀ j, (R j).isSome)
    (hflags : ¬ noClassEnabled g)
    (hL : 0 ≤ g.requireLower) (hU : 0 ≤ g.requireUpper)
    (hD : 0 ≤ g.requireDigits) (hS : 0 ≤ g.requireSymbols)
    (hsum : reqSum g ≤ len) :
    ∃ s, Generate g len R = .ok s ∧ (s.length : Int) = len := by
  rcases generate_run g len R hR hflags hsum with ⟨_, hpool, _⟩ |
    ⟨tL, tU, tD, tS, fl, s, hok, hperm, hLl, hUl, hDl, hSl, hfl, _⟩
  · exact absurd hpool (std_pool_ne g hstd hflags)
  · refine ⟨s, hok, ?_⟩
    have hlen := hperm.length_eq
    simp only [List.length_append, hLl, hUl, hDl, hSl, hfl] at hlen
    unfold seedLen at hlen
    unfold reqSum at hsum
    omega

theorem claim_C1_witness :
    ∃ s, Generate (WithLower NewGenerator) 3 (fun _ => some 0) = .ok s ∧
      ((s.length : Int) = 3) :=
  claim_C1 (WithLower NewGenerator) 3 (fun _ => some 0) (by decide)
    (fun _ => rfl) (by decide) (by decide) (by decide) (by decide) (by decide)
    (by decide)

/-- Claim C2 (code bug): the claim says a random-source failure at ANY step —
seeding, filling, or the final shuffle — propagates to the caller as the
returned error.  Seeding and filling do propagate (third conjunct: a failure
during the fill step is returned).  But `shuffle` DISCARDS the error of its
`rand.Int` call (`randIndex, _ := rand.Int(...)`) and then dereferences the
`nil` result, so a failure during the shuffle panics instead of being
returned (first two conjuncts): with one enabled class and length 1, an
oracle that succeeds on the fill draw (call 0) and fails on the shuffle draw
(call 1) makes `Generate` panic with a nil dereference. -/
theorem claim_C2 :
    Generate (WithLower NewGenerator) 1 (fun n => if n = 0 then some 0 else none) =
        .panicked .nilDeref ∧
      Generate (WithLower NewGenerator) 1 (fun n => if n = 0 then some 0 else none) ≠
        .err .randFailure ∧
      Generate (WithLower NewGenerator) 1 (fun _ => none) = .err .randFailure := by
  refine ⟨by decide, by decide, by decide⟩

/-- Claim C3 counterexample: the generator `NewGenerator().ExactLower(5)` has
no class enabled but a required count SET, and `Generate(10)` still returns
`ErrNoCharactersSpecified` (from the first guard) — which is neither case (a)
of the claim (a required count is set) nor case (b) (the first guard, not the
fill-time check, fires: `noCharCaseB` requires the first guard to have been
passed). -/
theorem claim_C3_counterexample :
    Generate (ExactLower NewGenerator 5) 10 (fun _ => some 0) =
        .err .noCharactersSpecified ∧
      ¬ noCharCaseA (ExactLower NewGenerator 5) ∧
      ¬ noCharCaseB (ExactLower NewGenerator 5) 10 := by
  refine ⟨by decide, by decide, by decide⟩

/-- Claim C3 amended: with a working random source, `Generate` returns
`ErrNoCharactersSpecified` exactly when (a) no class is enabled — regardless
of the required counts, since the first guard only inspects the four
inclusion flags — or (b) the guards are passed, slots remain after seeding,
and the fill pool is empty (checked at fill time). -/
theorem claim_C3 (g : Generator) (len : Int) (R : Oracle)
    (hR : ∀ j, (R j).isSome) :
    Generate g len R = .err .noCharactersSpecified ↔
      noClassEnabled g ∨ noCharCaseB g len := by
  by_cases hflags : noClassEnabled g
  · simp [generate_noClass g len R hflags, hflags]
  · by_cases hsum : reqSum g ≤ len
    · rcases generate_run g len R hR hflags hsum with ⟨hlt, hpool, heq⟩ |
        ⟨tL, tU, tD, tS, fl, s, hok, _, _, _, _, _, hfl, _, _, _, _, hflm⟩
      · rw [heq]
        simp only [true_iff]
        exact Or.inr ⟨hflags, hsum, hlt, hpool⟩
      · rw [hok]
        refine iff_of_false (by simp) ?_
        rintro (hA | ⟨_, _, hlt2, hpool2⟩)
        · exact hflags hA
        · have hfl0 : fl.length ≠ 0 := by rw [hfl]; omega
          obtain ⟨x, hx⟩ := List.exists_mem_of_ne_nil fl
            (fun h => hfl0 (by rw [h]; rfl))
          rw [List.length_eq_zero] at hpool2
          have := hflm x hx
          rw [hpool2] at this
          simp at this
    · have heq := generate_exceeds g len R hflags (not_le.mp hsum)
      refine iff_of_false (by simp [heq]) ?_
      rintro (hA | ⟨_, hsum2, _, _⟩)
      · exact hflags hA
      · exact hsum hsum2

theorem claim_C3_witness :
    (Generate NewGenerator 5 (fun _ => some 0) = .err .noCharactersSpecified) ↔
      (noClassEnabled NewGenerator ∨ noCharCaseB NewGenerator 5) :=
  claim_C3 NewGenerator 5 (fun _ => some 0) (fun _ => rfl)

/-- Claim C4 counterexample: for `NewGenerator().ExactLower(5)` (no class
enabled) and length 3, the required counts exceed the length, yet `Generate`
returns `ErrNoCharactersSpecified` — NOT `ErrExceedsTotalLength` — because
the no-characters guard runs first. -/
theorem claim_C4_counterexample :
    reqSum (ExactLower NewGenerator 5) > 3 ∧
      Generate (ExactLower NewGenerator 5) 3 (fun _ => some 0) =
        .err .noCharactersSpecified ∧
      Generate (ExactLower NewGenerator 5) 3 (fun _ => some 0) ≠
        .err .exceedsTotalLength := by
  refine ⟨by decide, by decide, by decide⟩

/-- Claim C4 amended: for every configuration with AT LEAST ONE class
enabled (when no class is enabled the no-characters guard fires first), if
the required counts sum to more than the length then `Generate` fails with
`ErrExceedsTotalLength`, before any sampling (the result does not depend on
the oracle) and independently of the alphabet fields. -/
theorem claim_C4 (g : Generator) (len : Int) (R : Oracle)
    (hflags : ¬ noClassEnabled g) (h : len < reqSum g) :
    Generate g len R = .err .exceedsTotalLength :=
  generate_exceeds g len R hflags h

theorem claim_C4_witness :
    Generate (RequireLower NewGenerator 5) 3 (fun _ => some 0) =
      .err .exceedsTotalLength :=
  claim_C4 (RequireLower NewGenerator 5) 3 (fun _ => some 0) (by decide) (by decide)

/-- Claim C8: if no inclusion flag is set (hence the fill pool is empty)
while the seeded buffer would still be shorter than the requested length,
`Generate` fails with `ErrNoCharactersSpecified` rather than returning a
short string.  (In the code this error comes from the FIRST guard, which
only inspects the flags and fires before any seeding; the dedicated
fill-time check is unreachable for such configurations.) -/
theorem claim_C8 (g : Generator) (len : Int) (R : Oracle)
    (hflags : noClassEnabled g) (_hshort : (seedLen g : Int) < len) :
    Generate g len R = .err .noCharactersSpecified :=
  generate_noClass g len R hflags

theorem claim_C8_witness :
    Generate (ExactUpper NewGenerator 1) 3 (fun _ => some 0) =
      .err .noCharactersSpecified :=
  claim_C8 (ExactUpper NewGenerator 1) 3 (fun _ => some 0) (by decide) (by decide)

/-- Claim C9: `Generate` never mutates the generator: the embedding threads
the receiver through every exit path (the Go method contains no write to any
of the twelve configuration fields), and the receiver that comes back out is
the one that went in, whether the call succeeds or fails, so the generator
can be reused. -/
theorem claim_C9 (g : Generator) (len : Int) (R : Oracle) :
    (GenerateSt g len R).2 = g := by
  unfold GenerateSt
  split
  · rfl
  · split <;> rfl

/-- Claim C10: the zero-bound panic branch of the random index selection is
unreachable in `Generate`, for EVERY configuration, length and oracle:
required-character seeding draws from the non-empty constant alphabets, the
fill draw is guarded by the pool-emptiness check, and the shuffle only draws
with positive bounds. -/
theorem claim_C10 (g : Generator) (len : Int) (R : Oracle) :
    Generate g len R ≠ .panicked .zeroBound := by
  unfold Generate GenerateSt
  split
  · simp
  · split
    · simp
    · show (generateBody g len R).1 ≠ _
      unfold generateBody
      apply andThen_ne_zeroBound
      · exact seedN_not_panicked R LowerLetters (by decide) _ _ _ _
      · intro b1 c1
        apply andThen_ne_zeroBound
        · exact seedN_not_panicked R UpperLetters (by decide) _ _ _ _
        · intro b2 c2
          apply andThen_ne_zeroBound
          · exact seedN_not_panicked R Digits (by decide) _ _ _ _
          · intro b3 c3
            apply andThen_ne_zeroBound
            · exact seedN_not_panicked R Symbols (by decide) _ _ _ _
            · intro b4 c4
              apply andThen_ne_zeroBound
              · split
                · split
                  · simp
                  · next hpool => exact seedN_not_panicked R (fillPool g) hpool _ _ _ _
                · simp
              · intro b5 c5
                exact shuffleAux_ne_zeroBound R _ _ _

/-- Claim C5: every character of a successful output belongs to the union of
the (full) alphabets of classes that are enabled or have a required count
> 0, and no output character belongs to a class that is neither enabled nor
required (any configuration with API-produced alphabets, including the
no-ambiguity ones, whose fill alphabets are subsets of the full tables). -/
theorem claim_C5 (g : Generator) (len : Int) (R : Oracle) (s : List Char)
    (hstd : StdAlphabets g) (hR : ∀ j, (R j).isSome)
    (hok : Generate g len R = .ok s) :
    (∀ ch ∈ s, ch ∈ activeUnion g) ∧
      ∀ X : CharClass, withFlag g X = false → reqOf g X ≤ 0 →
        ∀ ch ∈ s, ch ∉ fullAlpha X := by
  have hflags : ¬ noClassEnabled g := by
    intro h
    rw [generate_noClass g len R h] at hok
    simp at hok
  have hsum : reqSum g ≤ len := by
    by_contra h
    rw [generate_exceeds g len R hflags (not_le.mp h)] at hok
    simp at hok
  rcases generate_run g len R hR hflags hsum with ⟨_, _, heq⟩ |
    ⟨tL, tU, tD, tS, fl, s', hok2, hperm, hLl, hUl, hDl, hSl, _, hLm, hUm, hDm, hSm, hflm⟩
  · rw [heq] at hok; simp at hok
  · rw [hok] at hok2
    have hss : s = s' := by simpa using hok2
    subst hss
    have hmem : ∀ ch ∈ s, ch ∈ tL ∨ ch ∈ tU ∨ ch ∈ tD ∨ ch ∈ tS ∨ ch ∈ fl := by
      intro ch hch
      have h' := hperm.mem_iff.mp hch
      simpa only [List.mem_append, or_assoc] using h'
    have hempty : ∀ (t : List Char) (q : Int), t.length = q.toNat → q ≤ 0 →
        ∀ y ∈ t, False := by
      intro t q hlen hq y hy
      have : 0 < t.length := List.length_pos.mpr (List.ne_nil_of_mem hy)
      omega
    constructor
    · intro ch hch
      simp only [activeUnion, List.mem_append]
      rcases hmem ch hch with h' | h' | h' | h' | h'
      · have hpos : 0 < g.requireLower := by
          have : 0 < tL.length := List.length_pos.mpr (List.ne_nil_of_mem h')
          rw [hLl] at this; omega
        exact Or.inl (Or.inl (Or.inl (by rw [if_pos (Or.inr hpos)]; exact hLm ch h')))
      · have hpos : 0 < g.requireUpper := by
          have : 0 < tU.length := List.length_pos.mpr (List.ne_nil_of_mem h')
          rw [hUl] at this; omega
        exact Or.inl (Or.inl (Or.inr (by rw [if_pos (Or.inr hpos)]; exact hUm ch h')))
      · have hpos : 0 < g.requireDigits := by
          have : 0 < tD.length := List.length_pos.mpr (List.ne_nil_of_mem h')
          rw [hDl] at this; omega
        exact Or.inl (Or.inr (by rw [if_pos (Or.inr hpos)]; exact hDm ch h'))
      · have hpos : 0 < g.requireSymbols := by
          have : 0 < tS.length := List.length_pos.mpr (List.ne_nil_of_mem h')
          rw [hSl] at this; omega
        exact Or.inr (by rw [if_pos (Or.inr hpos)]; exact hSm ch h')
      · rcases fillPool_mem g hstd ch (hflm ch h') with ⟨hf, hm⟩ | ⟨hf, hm⟩ |
          ⟨hf, hm⟩ | ⟨hf, hm⟩
        · exact Or.inl (Or.inl (Or.inl (by rw [if_pos (Or.inl hf)]; exact hm)))
        · exact Or.inl (Or.inl (Or.inr (by rw [if_pos (Or.inl hf)]; exact hm)))
        · exact Or.inl (Or.inr (by rw [if_pos (Or.inl hf)]; exact hm))
        · exact Or.inr (by rw [if_pos (Or.inl hf)]; exact hm)
    · intro X hflag hreq ch hch hmemX
      cases X with
      | lower =>
        simp only [withFlag] at hflag
        simp only [reqOf] at hreq
        rcases hmem ch hch with h' | h' | h' | h' | h'
        · exact hempty tL g.requireLower hLl hreq ch h'
        · exact fullAlpha_disj .upper .lower (by decide) ch (hUm ch h') hmemX
        · exact fullAlpha_disj .digit .lower (by decide) ch (hDm ch h') hmemX
        · exact fullAlpha_disj .symbol .lower (by decide) ch (hSm ch h') hmemX
        · rcases fillPool_mem g hstd ch (hflm ch h') with ⟨hf, _⟩ | ⟨_, hm⟩ |
            ⟨_, hm⟩ | ⟨_, hm⟩
          · rw [hflag] at hf; exact Bool.false_ne_true hf
          · exact fullAlpha_disj .upper .lower (by decide) ch hm hmemX
          · exact fullAlpha_disj .digit .lower (by decide) ch hm hmemX
          · exact fullAlpha_disj .symbol .lower (by decide) ch hm hmemX
      | upper =>
        simp only [withFlag] at hflag
        simp only [reqOf] at hreq
        rcases hmem ch hch with h' | h' | h' | h' | h'
        · exact fullAlpha_disj .lower .upper (by decide) ch (hLm ch h') hmemX
        · exact hempty tU g.requireUpper hUl hreq ch h'
        · exact fullAlpha_disj .digit .upper (by decide) ch (hDm ch h') hmemX
        · exact fullAlpha_disj .symbol .upper (by decide) ch (hSm ch h') hmemX
        · rcases fillPool_mem g hstd ch (hflm ch h') with ⟨_, hm⟩ | ⟨hf, _⟩ |
            ⟨_, hm⟩ | ⟨_, hm⟩
          · exact fullAlpha_disj .lower .upper (by decide) ch hm hmemX
          · rw [hflag] at hf; exact Bool.false_ne_true hf
          · exact fullAlpha_disj .digit .upper (by decide) ch hm hmemX
          · exact fullAlpha_disj .symbol .upper (by decide) ch hm hmemX
      | digit =>
        simp only [withFlag] at hflag
        simp only [reqOf] at hreq
        rcases hmem ch hch with h' | h' | h' | h' | h'
        · exact fullAlpha_disj .lower .digit (by decide) ch (hLm ch h') hmemX
        · exact fullAlpha_disj .upper .digit (by decide) ch (hUm ch h') hmemX
        · exact hempty tD g.requireDigits hDl hreq ch h'
        · exact fullAlpha_disj .symbol .digit (by decide) ch (hSm ch h') hmemX
        · rcases fillPool_mem g hstd ch (hflm ch h') with ⟨_, hm⟩ | ⟨_, hm⟩ |
            ⟨hf, _⟩ | ⟨_, hm⟩
          · exact fullAlpha_disj .lower .digit (by decide) ch hm hmemX
          · exact fullAlpha_disj .upper .digit (by decide) ch hm hmemX
          · rw [hflag] at hf; exact Bool.false_ne_true hf
          · exact fullAlpha_disj .symbol .digit (by decide) ch hm hmemX
      | symbol =>
        simp only [withFlag] at hflag
        simp only [reqOf] at hreq
        rcases hmem ch hch with h' | h' | h' | h' | h'
        · exact fullAlpha_disj .lower .symbol (by decide) ch (hLm ch h') hmemX
        · exact fullAlpha_disj .upper .symbol (by decide) ch (hUm ch h') hmemX
        · exact fullAlpha_disj .digit .symbol (by decide) ch (hDm ch h') hmemX
        · exact hempty tS g.requireSymbols hSl hreq ch h'
        · rcases fillPool_mem g hstd ch (hflm ch h') with ⟨_, hm⟩ | ⟨_, hm⟩ |
            ⟨_, hm⟩ | ⟨hf, _⟩
          · exact fullAlpha_disj .lower .symbol (by decide) ch hm hmemX
          · exact fullAlpha_disj .upper .symbol (by decide) ch hm hmemX
          · exact fullAlpha_disj .digit .symbol (by decide) ch hm hmemX
          · rw [hflag] at hf; exact Bool.false_ne_true hf

theorem claim_C5_witness : ('a' : Char) ∈ activeUnion (WithLower NewGenerator) :=
  (claim_C5 (WithLower NewGenerator) 2 (fun _ => some 0) ['a', 'a'] (by decide)
    (fun _ => rfl) (by decide)).1 'a' (by decide)

/-- Claim C6: required-character seeding always draws from the FULL alphabet
tables even when `NoAmbiguousCharacters` is active, while the fill step draws
from the configured (no-ambiguity) alphabets.  First conjunct: with the
no-ambiguity alphabets installed and one required lowercase character, the
output can be the ambiguous letter `l`, which the no-ambiguity lowercase
alphabet excludes — so seeding used the full table.  Second conjunct: with no
required counts, every character of a successful output comes from the
configured fill pool.  Third conjunct: with the no-ambiguity alphabets
installed, that fill pool never contains `l` — so the fill step respects the
no-ambiguity setting. -/
theorem claim_C6 :
    (Generate (RequireLower (NoAmbiguousCharacters NewGenerator) 1) 1
        (fun _ => some 11) = .ok ['l'] ∧ ('l' : Char) ∉ LowerLettersNoAmbig) ∧
      (∀ (g : Generator) (len : Int) (R : Oracle) (s : List Char),
        g.lowerLetters = LowerLettersNoAmbig → g.upperLetters = UpperLettersNoAmbig →
        g.digits = DigitsNoAmbig → g.symbols = SymbolsNoAmbig →
        (∀ j, (R j).isSome) →
        g.requireLower ≤ 0 → g.requireUpper ≤ 0 → g.requireDigits ≤ 0 →
        g.requireSymbols ≤ 0 →
        Generate g len R = .ok s → ∀ ch ∈ s, ch ∈ fillPool g) ∧
      (∀ g : Generator,
        g.lowerLetters = LowerLettersNoAmbig → g.upperLetters = UpperLettersNoAmbig →
        g.digits = DigitsNoAmbig → g.symbols = SymbolsNoAmbig →
        ('l' : Char) ∉ fillPool g) := by
  refine ⟨⟨by decide, by decide⟩, ?_, ?_⟩
  · intro g len R s h1 h2 h3 h4 hR hL hU hD hS hok
    have hflags : ¬ noClassEnabled g := by
      intro h
      rw [generate_noClass g len R h] at hok
      simp at hok
    have hsum : reqSum g ≤ len := by
      by_contra h
      rw [generate_exceeds g len R hflags (not_le.mp h)] at hok
      simp at hok
    rcases generate_run g len R hR hflags hsum with ⟨_, _, heq⟩ |
      ⟨tL, tU, tD, tS, fl, s', hok2, hperm, hLl, hUl, hDl, hSl, _, _, _, _, _, hflm⟩
    · rw [heq] at hok; simp at hok
    · rw [hok] at hok2
      have hss : s = s' := by simpa using hok2
      subst hss
      intro ch hch
      have h' := hperm.mem_iff.mp hch
      simp only [List.mem_append, or_assoc] at h'
      have hLe : tL = [] := List.length_eq_zero.mp (by rw [hLl]; omega)
      have hUe : tU = [] := List.length_eq_zero.mp (by rw [hUl]; omega)
      have hDe : tD = [] := List.length_eq_zero.mp (by rw [hDl]; omega)
      have hSe : tS = [] := List.length_eq_zero.mp (by rw [hSl]; omega)
      rcases h' with h' | h' | h' | h' | h'
      · rw [hLe] at h'; simp at h'
      · rw [hUe] at h'; simp at h'
      · rw [hDe] at h'; simp at h'
      · rw [hSe] at h'; simp at h'
      · exact hflm ch h'
  · intro g h1 h2 h3 h4 hmem
    unfold fillPool at hmem
    rw [h1, h2, h3, h4] at hmem
    split_ifs at hmem <;> revert hmem <;> decide

theorem claim_C6_witness :
    ('2' : Char) ∈ fillPool (WithDigits (NoAmbiguousCharacters NewGenerator)) :=
  claim_C6.2.1 (WithDigits (NoAmbiguousCharacters NewGenerator)) 2 (fun _ => some 0)
    ['2', '2'] (by decide) (by decide) (by decide) (by decide) (fun _ => rfl)
    (by decide) (by decide) (by decide) (by decide) (by decide) '2' (by decide)

/-- Claim C7: for a generator whose class `X` is configured via `ExactX(n)`
(inclusion flag false, required count `n ≥ 0`, API-produced alphabets), every
successful output contains EXACTLY `n` characters of `X`'s alphabet: the `n`
seeded characters are from `X`'s (full) alphabet, and no fill character can
come from `X` because `X` is absent from the fill pool.  (The required
counts of the other classes are irrelevant to the count, so they are not
constrained here.) -/
theorem claim_C7 (g : Generator) (len : Int) (R : Oracle) (s : List Char)
    (X : CharClass)
    (hstd : StdAlphabets g) (hR : ∀ j, (R j).isSome)
    (hflag : withFlag g X = false) (hn : 0 ≤ reqOf g X)
    (hok : Generate g len R = .ok s) :
    s.countP (fun ch => decide (ch ∈ fullAlpha X)) = (reqOf g X).toNat := by
  have hflags : ¬ noClassEnabled g := by
    intro h
    rw [generate_noClass g len R h] at hok
    simp at hok
  have hsum : reqSum g ≤ len := by
    by_contra h
    rw [generate_exceeds g len R hflags (not_le.mp h)] at hok
    simp at hok
  rcases generate_run g len R hR hflags hsum with ⟨_, _, heq⟩ |
    ⟨tL, tU, tD, tS, fl, s', hok2, hperm, hLl, hUl, hDl, hSl, _, hLm, hUm, hDm, hSm, hflm⟩
  · rw [heq] at hok; simp at hok
  · rw [hok] at hok2
    have hss : s = s' := by simpa using hok2
    subst hss
    rw [hperm.countP_eq (fun ch => decide (ch ∈ fullAlpha X))]
    simp only [List.countP_append]
    cases X with
    | lower =>
      simp only [withFlag] at hflag
      simp only [reqOf]
      have c1 : tL.countP (fun ch => decide (ch ∈ fullAlpha CharClass.lower)) =
          tL.length :=
        List.countP_eq_length.mpr (fun a ha => by
          simp only [fullAlpha, decide_eq_true_eq]; exact hLm a ha)
      have c2 : tU.countP (fun ch => decide (ch ∈ fullAlpha CharClass.lower)) = 0 :=
        List.countP_eq_zero.mpr (fun a ha => by
          simp only [fullAlpha, decide_eq_true_eq]
          exact fullAlpha_disj .upper .lower (by decide) a (hUm a ha))
      have c3 : tD.countP (fun ch => decide (ch ∈ fullAlpha CharClass.lower)) = 0 :=
        List.countP_eq_zero.mpr (fun a ha => by
          simp only [fullAlpha, decide_eq_true_eq]
          exact fullAlpha_disj .digit .lower (by decide) a (hDm a ha))
      have c4 : tS.countP (fun ch => decide (ch ∈ fullAlpha CharClass.lower)) = 0 :=
        List.countP_eq_zero.mpr (fun a ha => by
          simp only [fullAlpha, decide_eq_true_eq]
          exact fullAlpha_disj .symbol .lower (by decide) a (hSm a ha))
      have c5 : fl.countP (fun ch => decide (ch ∈ fullAlpha CharClass.lower)) = 0 :=
        List.countP_eq_zero.mpr (fun a ha => by
          simp only [fullAlpha, decide_eq_true_eq]
          rcases fillPool_mem g hstd a (hflm a ha) with ⟨hf, _⟩ | ⟨_, hm⟩ |
            ⟨_, hm⟩ | ⟨_, hm⟩
          · rw [hflag] at hf; exact absurd hf (by simp)
          · exact fullAlpha_disj .upper .lower (by decide) a hm
          · exact fullAlpha_disj .digit .lower (by decide) a hm
          · exact fullAlpha_disj .symbol .lower (by decide) a hm)
      rw [c1, c2, c3, c4, c5, hLl]
      omega
    | upper =>
      simp only [withFlag] at hflag
      simp only [reqOf]
      have c1 : tL.countP (fun ch => decide (ch ∈ fullAlpha CharClass.upper)) = 0 :=
        List.countP_eq_zero.mpr (fun a ha => by
          simp only [fullAlpha, decide_eq_true_eq]
          exact fullAlpha_disj .lower .upper (by decide) a (hLm a ha))
      have c2 : tU.countP (fun ch => decide (ch ∈ fullAlpha CharClass.upper)) =
          tU.length :=
        List.countP_eq_length.mpr (fun a ha => by
          simp only [fullAlpha, decide_eq_true_eq]; exact hUm a ha)
      have c3 : tD.countP (fun ch => decide (ch ∈ fullAlpha CharClass.upper)) = 0 :=
        List.countP_eq_zero.mpr (fun a ha => by
          simp only [fullAlpha, decide_eq_true_eq]
          exact fullAlpha_disj .digit .upper (by decide) a (hDm a ha))
      have c4 : tS.countP (fun ch => decide (ch ∈ fullAlpha CharClass.upper)) = 0 :=
        List.countP_eq_zero.mpr (fun a ha => by
          simp only [fullAlpha, decide_eq_true_eq]
          exact fullAlpha_disj .symbol .upper (by decide) a (hSm a ha))
      have c5 : fl.countP (fun ch => decide (ch ∈ fullAlpha CharClass.upper)) = 0 :=
        List.countP_eq_zero.mpr (fun a ha => by
          simp only [fullAlpha, decide_eq_true_eq]
          rcases fillPool_mem g hstd a (hflm a ha) with ⟨_, hm⟩ | ⟨hf, _⟩ |
            ⟨_, hm⟩ | ⟨_, hm⟩
          · exact fullAlpha_disj .lower .upper (by decide) a hm
          · rw [hflag] at hf; exact absurd hf (by simp)
          · exact fullAlpha_disj .digit .upper (by decide) a hm
          · exact fullAlpha_disj .symbol .upper (by decide) a hm)
      rw [c1, c2, c3, c4, c5, hUl]
      omega
    | digit =>
      simp only [withFlag] at hflag
      simp only [reqOf]
      have c1 : tL.countP (fun ch => decide (ch ∈ fullAlpha CharClass.digit)) = 0 :=
        List.countP_eq_zero.mpr (fun a ha => by
          simp only [fullAlpha, decide_eq_true_eq]
          exact fullAlpha_disj .lower .digit (by decide) a (hLm a ha))
      have c2 : tU.countP (fun ch => decide (ch ∈ fullAlpha CharClass.digit)) = 0 :=
        List.countP_eq_zero.mpr (fun a ha => by
          simp only [fullAlpha, decide_eq_true_eq]
          exact fullAlpha_disj .upper .digit (by decide) a (hUm a ha))
      have c3 : tD.countP (fun ch => decide (ch ∈ fullAlpha CharClass.digit)) =
          tD.length :=
        List.countP_eq_length.mpr (fun a ha => by
          simp only [fullAlpha, decide_eq_true_eq]; exact hDm a ha)
      have c4 : tS.countP (fun ch => decide (ch ∈ fullAlpha CharClass.digit)) = 0 :=
        List.countP_eq_zero.mpr (fun a ha => by
          simp only [fullAlpha, decide_eq_true_eq]
          exact fullAlpha_disj .symbol .digit (by decide) a (hSm a ha))
      have c5 : fl.countP (fun ch => decide (ch ∈ fullAlpha CharClass.digit)) = 0 :=
        List.countP_eq_zero.mpr (fun a ha => by
          simp only [fullAlpha, decide_eq_true_eq]
          rcases fillPool_mem g hstd a (hflm a ha) with ⟨_, hm⟩ | ⟨_, hm⟩ |
            ⟨hf, _⟩ | ⟨_, hm⟩
          · exact fullAlpha_disj .lower .digit (by decide) a hm
          · exact fullAlpha_disj .upper .digit (by decide) a hm
          · rw [hflag] at hf; exact absurd hf (by simp)
          · exact fullAlpha_disj .symbol .digit (by decide) a hm)
      rw [c1, c2, c3, c4, c5, hDl]
      omega
    | symbol =>
      simp only [withFlag] at hflag
      simp only [reqOf]
      have c1 : tL.countP (fun ch => decide (ch ∈ fullAlpha CharClass.symbol)) = 0 :=
        List.countP_eq_zero.mpr (fun a ha => by
          simp only [fullAlpha, decide_eq_true_eq]
          exact fullAlpha_disj .lower .symbol (by decide) a (hLm a ha))
      have c2 : tU.countP (fun ch => decide (ch ∈ fullAlpha CharClass.symbol)) = 0 :=
        List.countP_eq_zero.mpr (fun a ha => by
          simp only [fullAlpha, decide_eq_true_eq]
          exact fullAlpha_disj .upper .symbol (by decide) a (hUm a ha))
      have c3 : tD.countP (fun ch => decide (ch ∈ fullAlpha CharClass.symbol)) = 0 :=
        List.countP_eq_zero.mpr (fun a ha => by
          simp only [fullAlpha, decide_eq_true_eq]
          exact fullAlpha_disj .digit .symbol (by decide) a (hDm a ha))
      have c4 : tS.countP (fun ch => decide (ch ∈ fullAlpha CharClass.symbol)) =
          tS.length :=
        List.countP_eq_length.mpr (fun a ha => by
          simp only [fullAlpha, decide_eq_true_eq]; exact hSm a ha)
      have c5 : fl.countP (fun ch => decide (ch ∈ fullAlpha CharClass.symbol)) = 0 :=
        List.countP_eq_zero.mpr (fun a ha => by
          simp only [fullAlpha, decide_eq_true_eq]
          rcases fillPool_mem g hstd a (hflm a ha) with ⟨_, hm⟩ | ⟨_, hm⟩ |
            ⟨_, hm⟩ | ⟨hf, _⟩
          · exact fullAlpha_disj .lower .symbol (by decide) a hm
          · exact fullAlpha_disj .upper .symbol (by decide) a hm
          · exact fullAlpha_disj .digit .symbol (by decide) a hm
          · rw [hflag] at hf; exact absurd hf (by simp))
      rw [c1, c2, c3, c4, c5, hSl]
      omega

theorem claim_C7_witness :
    List.countP (fun ch => decide (ch ∈ fullAlpha CharClass.lower))
        ['a', 'A', 'A', 'a'] =
      (reqOf (ExactLower (WithUpper NewGenerator) 2) CharClass.lower).toNat :=
  claim_C7 (ExactLower (WithUpper NewGenerator) 2) 4 (fun _ => some 0)
    ['a', 'A', 'A', 'a'] CharClass.lower (by decide) (fun _ => rfl) (by decide)
    (by decide) (by decide)

end Passwordgen
